import Mathlib

/-!
Student service (`src/main.go`): a shallow embedding.

The service keeps a process-wide slice `students` and serves it through six
route handlers; one of them forwards a record to a text-generation endpoint
and reads the answer back as a stream of JSON frames.

Conventions of the embedding:

* the global slice `students` is threaded explicitly: every handler takes the
  current slice and returns the slice it leaves behind;
* Go `int` is `Int` (no arithmetic of the program can overflow: the only
  arithmetic is `len(students) + 1`);
* a Go call returning `(value, error)` is an `Except Error value`;
* calls into libraries that are not part of the repository
  (`strconv.Atoi(c.Param("id"))`, `c.Bind(&reqBody)`, `mail.ParseAddress`,
  `json.Marshal`, `http.Post`, `json.Decoder.Decode`) are not re-implemented:
  a handler receives the outcome of the call, or the call itself as a
  parameter.
-/

namespace StudentAPI

/-! ## Data model -/

/-- The record type `Student` (main.go, lines 14-19). -/
structure Student where
  ID : Int
  Name : String
  Age : Int
  Email : String
deriving DecidableEq, Repr

/-- The initial value of the global `students` (main.go, lines 21-25). -/
def students : List Student :=
  [ { ID := 1, Name := "Rahul", Age := 22, Email := "rahul@gmail.com" },
    { ID := 2, Name := "Alice", Age := 23, Email := "alice@gmail.com" },
    { ID := 3, Name := "Rob", Age := 24, Email := "rob@gmail.com" } ]

/-- Go `error` values.  `lib` is an error produced by a library call and passed
through unchanged; the other two are built by `generateStudentSummary` with
`fmt.Errorf` (lines 56 and 78). -/
inductive Error where
  | lib (msg : String)
  | apiRequestFailed (status : Int)
  | emptyResponse
deriving DecidableEq, Repr

/-- The error `io.EOF`, which `Decode` returns at the end of the stream. -/
def EOF : Error := Error.lib "EOF"

/-- What a handler hands to `c.JSON` / `c.String`. -/
inductive Body where
  | text (s : String)
  | student (s : Student)
  | students (l : List Student)
  | summary (s : String)
deriving DecidableEq, Repr

/-- A response written by a handler: status code and body. -/
structure Response where
  code : Nat
  body : Body
deriving DecidableEq, Repr

def StatusOK : Nat := 200
def StatusCreated : Nat := 201
def StatusBadRequest : Nat := 400
def StatusNotFound : Nat := 404
def StatusInternalServerError : Nat := 500

/-- Outcome of one handler call: the value the handler returns (a response it
wrote, or the error it returned to the framework) and the slice `students`
it leaves behind. -/
abbrev Outcome := Except Error Response × List Student

/-! ## The lookup loop shared by the handlers -/

/-- The loop `for i := range students { if students[i].ID == sID { ...; break } }`
(lines 138-143, 178-184): position of the first record whose `ID` is `sID`,
`none` when the pointer `student` stays `nil`. -/
def findIndex (sID : Int) : List Student → Option Nat
  | [] => none
  | s :: rest => if s.ID = sID then some 0 else (findIndex sID rest).map (· + 1)

/-- The loop `for _, student := range students { if student.ID == sID { ... } }`
(lines 102-106, 201-206): the first record whose `ID` is `sID`. -/
def findStudent (sID : Int) : List Student → Option Student
  | [] => none
  | s :: rest => if s.ID = sID then some s else findStudent sID rest

/-- The three assignments through the pointer `student = &students[i]`
(lines 164-166): the record at position `i` gets the body's `Name`, `Age`
and `Email`; its `ID` is not assigned. -/
def assignFields (reqBody : Student) : Nat → List Student → List Student
  | _, [] => []
  | 0, s :: rest =>
      { s with Name := reqBody.Name, Age := reqBody.Age, Email := reqBody.Email } :: rest
  | i + 1, s :: rest => s :: assignFields reqBody i rest

/-! ## Route handlers -/

/-- Handler of `GET /students` (lines 92-94). -/
def getStudents (students : List Student) : Outcome :=
  (.ok ⟨StatusOK, .students students⟩, students)

/-- Handler of `GET /students/:id` (lines 96-108).  `atoi` is the outcome of
`strconv.Atoi(c.Param("id"))`. -/
def getStudent (students : List Student) (atoi : Except Error Int) : Outcome :=
  match atoi with
  | .error err => (.error err, students)
  | .ok sID =>
    match findStudent sID students with
    | some student => (.ok ⟨StatusOK, .student student⟩, students)
    | none => (.ok ⟨StatusNotFound, .text "Student not found"⟩, students)

/-- Handler of `POST /students` (lines 110-129).  `isValidEmail` is the
function of lines 27-33, whose verdict is that of `mail.ParseAddress`;
`bind` is the outcome of `c.Bind(&reqBody)`. -/
def postStudent (isValidEmail : String → Bool) (students : List Student)
    (bind : Except Error Student) : Outcome :=
  match bind with
  | .error err => (.error err, students)
  | .ok reqBody =>
    if reqBody.Name = "" then
      (.ok ⟨StatusBadRequest, .text "Name is required"⟩, students)
    else if reqBody.Age ≤ 0 then
      (.ok ⟨StatusBadRequest, .text "Age must be a positive integer"⟩, students)
    else if !isValidEmail reqBody.Email then
      (.ok ⟨StatusBadRequest, .text "Invalid email format"⟩, students)
    else
      let reqBody := { reqBody with ID := (students.length : Int) + 1 }
      (.ok ⟨StatusCreated, .student reqBody⟩, students ++ [reqBody])

/-- Handler of `PUT /students/:id` (lines 131-168). -/
def putStudent (isValidEmail : String → Bool) (students : List Student)
    (atoi : Except Error Int) (bind : Except Error Student) : Outcome :=
  match atoi with
  | .error err => (.error err, students)
  | .ok sID =>
    match findIndex sID students with
    | none => (.ok ⟨StatusNotFound, .text "Student not found"⟩, students)
    | some i =>
      match bind with
      | .error err => (.error err, students)
      | .ok reqBody =>
        if reqBody.Name = "" then
          (.ok ⟨StatusBadRequest, .text "Name is required"⟩, students)
        else if reqBody.Age ≤ 0 then
          (.ok ⟨StatusBadRequest, .text "Age must be a positive integer"⟩, students)
        else if !isValidEmail reqBody.Email then
          (.ok ⟨StatusBadRequest, .text "Invalid email format"⟩, students)
        else
          (.ok ⟨StatusOK, .text "student updated"⟩, assignFields reqBody i students)

/-- Handler of `DELETE /students/:id` (lines 170-192); line 190 is
`append(students[:index], students[index+1:]...)`. -/
def deleteStudent (students : List Student) (atoi : Except Error Int) : Outcome :=
  match atoi with
  | .error err => (.error err, students)
  | .ok sID =>
    match findIndex sID students with
    | none => (.ok ⟨StatusNotFound, .text "Student not found"⟩, students)
    | some index =>
      (.ok ⟨StatusOK, .text "student deleted"⟩,
        students.take index ++ students.drop (index + 1))

/-! ## Request sequences -/

/-- A request to one of the three handlers that can change `students`. -/
inductive Request where
  | create (bind : Except Error Student)
  | update (atoi : Except Error Int) (bind : Except Error Student)
  | delete (atoi : Except Error Int)

/-- The slice left behind by serving one request. -/
def serve (isValidEmail : String → Bool) (students : List Student) : Request → List Student
  | .create bind => (postStudent isValidEmail students bind).2
  | .update atoi bind => (putStudent isValidEmail students atoi bind).2
  | .delete atoi => (deleteStudent students atoi).2

/-- The slice left behind by serving a sequence of requests in order. -/
def serveAll (isValidEmail : String → Bool) (students : List Student)
    (reqs : List Request) : List Student :=
  reqs.foldl (serve isValidEmail) students

/-- A store state is reachable when some sequence of create, update and delete
requests leads to it from the initial three records. -/
def Reachable (isValidEmail : String → Bool) (store : List Student) : Prop :=
  ∃ reqs : List Request, serveAll isValidEmail students reqs = store

/-! ## The summary client -/

/-- A decoded JSON value stored in an `interface{}`, as far as the program
tells values apart: a Go `string`, a Go `bool`, or a value of any other
dynamic type (`nil`, `float64`, a slice, a map), kept as its JSON text. -/
inductive Value where
  | string (s : String)
  | bool (b : Bool)
  | other (json : String)
deriving DecidableEq, Repr

/-- One decoded frame, the `map[string]interface{}` named `part` (line 63). -/
abbrev Frame := List (String × Value)

/-- The map index expression `part[key]`; `none` is the nil interface of a
missing key. -/
def Frame.index (part : Frame) (key : String) : Option Value :=
  List.lookup key part

/-- The comma-ok type assertion `x.(string)` (line 68). -/
def asString : Option Value → Option String
  | some (.string s) => some s
  | _ => none

/-- The comma-ok type assertion `x.(bool)` (line 72). -/
def asBool : Option Value → Option Bool
  | some (.bool b) => some b
  | _ => none

/-- The frames of a response body as `json.Decoder` delivers them: the
successive outcomes of `decoder.Decode(&part)`.  Once the list is used up
`Decode` returns `io.EOF`. -/
abbrev Stream := List (Except Error Frame)

/-- The part of `http.Response` the program reads. -/
structure HTTPResponse where
  StatusCode : Int
  Body : Stream

/-- The loop of lines 62-75, started with the frames not yet read and the
current `accumulatedResponse`.  It returns the accumulated text at the
`break`, or the error of the failing `Decode`, together with the frames it
has not read. -/
def decodeLoop : Stream → String → Except Error String × Stream
  | [], _ => (.error EOF, [])
  | .error err :: rest, _ => (.error err, rest)
  | .ok part :: rest, accumulatedResponse =>
    let accumulatedResponse :=
      match asString (part.index "response") with
      | some response => accumulatedResponse ++ response
      | none => accumulatedResponse
    match asBool (part.index "done") with
    | some true => (.ok accumulatedResponse, rest)
    | _ => decodeLoop rest accumulatedResponse

/-- The library calls `generateStudentSummary` makes before it reads the
stream: `json.Marshal` on the payload map and `http.Post url contentType body`. -/
structure Upstream where
  Marshal : List (String × String) → Except Error String
  Post : String → String → String → Except Error HTTPResponse

/-- The `fmt.Sprintf` of lines 36-38. -/
def prompt (student : Student) : String :=
  "Summarize the student\x27s profile with the following information:\n\n" ++
  "Name: " ++ student.Name ++ "\nAge: " ++ toString student.Age ++
  "\nEmail: " ++ student.Email ++
  "\n\nPlease keep the summary concise and in a friendly tone."

/-- The function `generateStudentSummary` (lines 35-83). -/
def generateStudentSummary (up : Upstream) (student : Student) : Except Error String :=
  match up.Marshal [("model", "llama3.2"), ("prompt", prompt student)] with
  | .error err => .error err
  | .ok payloadBytes =>
    match up.Post "http://localhost:11434/api/generate" "application/json" payloadBytes with
    | .error err => .error err
    | .ok resp =>
      if resp.StatusCode ≠ 200 then
        .error (.apiRequestFailed resp.StatusCode)
      else
        match (decodeLoop resp.Body "").1 with
        | .error err => .error err
        | .ok accumulatedResponse =>
          if accumulatedResponse = "" then .error .emptyResponse
          else .ok accumulatedResponse

/-- Handler of `GET /students/:id/summary` (lines 194-217). -/
def getStudentSummary (up : Upstream) (students : List Student)
    (atoi : Except Error Int) : Outcome :=
  match atoi with
  | .error err => (.error err, students)
  | .ok sID =>
    match findStudent sID students with
    | none => (.ok ⟨StatusNotFound, .text "Student not found"⟩, students)
    | some student =>
      match generateStudentSummary up student with
      | .error _ => (.ok ⟨StatusInternalServerError, .text "Failed to generate summary"⟩, students)
      | .ok summary => (.ok ⟨StatusOK, .summary summary⟩, students)

/-! ## Concrete inputs -/

/-- A sample verdict function for `isValidEmail`, used where a theorem is
instantiated at concrete requests: it accepts the strings containing `@`.
On the addresses used below it agrees with `mail.ParseAddress`. -/
def containsAt (email : String) : Bool :=
  email.data.contains '@'

/-- A request body with all three fields valid. -/
def dave : Student :=
  { ID := 0, Name := "Dave", Age := 30, Email := "dave@gmail.com" }

/-- The first initial record. -/
def rahul : Student :=
  { ID := 1, Name := "Rahul", Age := 22, Email := "rahul@gmail.com" }

/-- The second initial record. -/
def alice : Student :=
  { ID := 2, Name := "Alice", Age := 23, Email := "alice@gmail.com" }

/-- The third initial record. -/
def rob : Student :=
  { ID := 3, Name := "Rob", Age := 24, Email := "rob@gmail.com" }

/-- The body `dave` as the create handler stores it in a store of two records. -/
def dave3 : Student :=
  { ID := 3, Name := "Dave", Age := 30, Email := "dave@gmail.com" }

/-- An upstream that answers 200 with the frames `Hi ` and `there` (the second
one `done`), followed by further frames. -/
def upstreamHiThere : Upstream :=
  { Marshal := fun _ => .ok "payload",
    Post := fun _ _ _ => .ok ⟨200,
      [.ok [("response", .string "Hi ")],
       .ok [("response", .string "there"), ("done", .bool true)],
       .ok [("response", .string " and more"), ("done", .bool true)]]⟩ }

/-- An upstream that answers with HTTP status 500. -/
def upstreamStatus500 : Upstream :=
  { Marshal := fun _ => .ok "payload",
    Post := fun _ _ _ => .ok ⟨500, []⟩ }

/-- The error `strconv.Atoi` returns for the path parameter `abc`. -/
def atoiError : Error :=
  .lib "strconv.Atoi: parsing \"abc\": invalid syntax"

/-- An upstream that answers 200 with two frames carrying fragments, none of
them `done`, and then ends. -/
def upstreamNeverDone : Upstream :=
  { Marshal := fun _ => .ok "payload",
    Post := fun _ _ _ => .ok ⟨200,
      [.ok [("response", .string "Hi ")],
       .ok [("response", .string "there"), ("done", .bool false)]]⟩ }

/-- An upstream that answers 200 with one fragment and then a frame that does
not decode, followed by a well-formed `done` frame. -/
def upstreamBrokenFrame : Upstream :=
  { Marshal := fun _ => .ok "payload",
    Post := fun _ _ _ => .ok ⟨200,
      [.ok [("response", .string "Hi ")],
       .error (.lib "invalid character"),
       .ok [("response", .string "there"), ("done", .bool true)]]⟩ }

/-! ## Specification-side definitions -/

/-- The text the specification asks of the summary client for a run of frames:
the `response` fragments that are strings, concatenated in the order of the
frames.  Written from the specification, to be compared with `decodeLoop`. -/
def concatFragments : List Frame → String
  | [] => ""
  | part :: rest =>
    (match asString (part.index "response") with
      | some response => response
      | none => "") ++ concatFragments rest

/-- Whether a request goes to the delete handler. -/
def Request.isDelete : Request → Bool
  | .delete _ => true
  | _ => false

/-- A store state reachable from the initial three records by create and
update requests only. -/
def ReachableWithoutDelete (isValidEmail : String → Bool) (store : List Student) : Prop :=
  ∃ reqs : List Request,
    (∀ r ∈ reqs, r.isDelete = false) ∧ serveAll isValidEmail students reqs = store

/-- The record invariant of the data model: a non-empty name, an age above 0
and an email the validator accepts. -/
def ValidRecord (isValidEmail : String → Bool) (s : Student) : Prop :=
  s.Name ≠ "" ∧ 0 < s.Age ∧ isValidEmail s.Email = true

/-- The ids of the store read 1, 2, ..., `len` in storage order. -/
def NumberedByPosition (store : List Student) : Prop :=
  store.map (fun s => s.ID) = (List.range store.length).map (fun (i : Nat) => (i : Int) + 1)

/-! ## Facts about the lookup loop -/

theorem findIndex_none_iff (sID : Int) (l : List Student) :
    findIndex sID l = none ↔ ∀ s ∈ l, s.ID ≠ sID := by
  induction l with
  | nil => simp [findIndex]
  | cons a rest ih =>
    by_cases h : a.ID = sID
    · simp [findIndex, h]
    · simp [findIndex, h, ih]

theorem findIndex_some_split (sID : Int) (l : List Student) (i : Nat)
    (h : findIndex sID l = some i) :
    ∃ pre s post, l = pre ++ s :: post ∧ pre.length = i ∧ s.ID = sID ∧
      ∀ t ∈ pre, t.ID ≠ sID := by
  induction l generalizing i with
  | nil => simp [findIndex] at h
  | cons a rest ih =>
    by_cases ha : a.ID = sID
    · simp [findIndex, ha] at h
      exact ⟨[], a, rest, by simp, by simpa using h, ha, by simp⟩
    · simp [findIndex, ha] at h
      obtain ⟨j, hj, rfl⟩ := h
      obtain ⟨pre, s, post, hl, hlen, hs, hpre⟩ := ih j hj
      refine ⟨a :: pre, s, post, by simp [hl], by simp [hlen], hs, ?_⟩
      intro t ht
      rcases List.mem_cons.mp ht with rfl | ht
      · exact ha
      · exact hpre t ht

theorem findIndex_of_mem (sID : Int) (l : List Student)
    (h : ∃ s ∈ l, s.ID = sID) : ∃ i, findIndex sID l = some i := by
  cases hf : findIndex sID l with
  | some i => exact ⟨i, rfl⟩
  | none =>
    obtain ⟨s, hs, hid⟩ := h
    exact absurd hid ((findIndex_none_iff sID l).mp hf s hs)

theorem assignFields_split (reqBody : Student) (pre : List Student) (s : Student)
    (post : List Student) :
    assignFields reqBody pre.length (pre ++ s :: post) =
      pre ++ { ID := s.ID, Name := reqBody.Name, Age := reqBody.Age,
               Email := reqBody.Email } :: post := by
  induction pre with
  | nil => simp [assignFields]
  | cons a pre ih => simp [assignFields, ih]

theorem take_drop_split (pre : List Student) (s : Student) (post : List Student) :
    (pre ++ s :: post).take pre.length ++ (pre ++ s :: post).drop (pre.length + 1) =
      pre ++ post := by
  induction pre with
  | nil => simp
  | cons a pre ih => simp

/-! ## Update (`PUT /students/:id`) -/

/-- C3: for every store, every id some stored record has and every body that
passes the three checks, the update handler answers 200 "student updated";
the store splits as `pre ++ s :: post` where `s` is the first record with that
id, and the new store is `pre ++ s' :: post` with the same length, where `s'`
keeps the id and carries the body's name, age and email (the body's id is not
used); every other record is untouched. -/
theorem putStudent_existing_valid (isValidEmail : String → Bool) (store : List Student)
    (sID : Int) (reqBody : Student)
    (hex : ∃ s ∈ store, s.ID = sID)
    (hname : reqBody.Name ≠ "") (hage : 0 < reqBody.Age)
    (hemail : isValidEmail reqBody.Email = true) :
    ∃ pre s post, store = pre ++ s :: post ∧ s.ID = sID ∧ (∀ t ∈ pre, t.ID ≠ sID) ∧
      putStudent isValidEmail store (.ok sID) (.ok reqBody) =
        (.ok ⟨StatusOK, .text "student updated"⟩,
          pre ++ { ID := sID, Name := reqBody.Name, Age := reqBody.Age,
                   Email := reqBody.Email } :: post) ∧
      (putStudent isValidEmail store (.ok sID) (.ok reqBody)).2.length = store.length := by
  obtain ⟨i, hi⟩ := findIndex_of_mem sID store hex
  obtain ⟨pre, s, post, hl, hlen, hs, hpre⟩ := findIndex_some_split sID store i hi
  have hage' : ¬ reqBody.Age ≤ 0 := not_le.mpr hage
  have hout : putStudent isValidEmail store (.ok sID) (.ok reqBody) =
      (.ok ⟨StatusOK, .text "student updated"⟩,
        pre ++ { ID := sID, Name := reqBody.Name, Age := reqBody.Age,
                 Email := reqBody.Email } :: post) := by
    simp only [putStudent, hi, hname, hage', hemail, if_false, Bool.not_true]
    subst hlen
    rw [hl, assignFields_split, hs]
    simp
  refine ⟨pre, s, post, hl, hs, hpre, hout, ?_⟩
  rw [hout, hl]
  simp

theorem putStudent_existing_valid_witness :
    (∃ s ∈ students, s.ID = 2) ∧ dave.Name ≠ "" ∧ 0 < dave.Age ∧
      containsAt dave.Email = true ∧
      ∃ pre s post, students = pre ++ s :: post ∧ s.ID = 2 ∧ (∀ t ∈ pre, t.ID ≠ 2) ∧
        putStudent containsAt students (.ok 2) (.ok dave) =
          (.ok ⟨StatusOK, .text "student updated"⟩,
            pre ++ { ID := 2, Name := dave.Name, Age := dave.Age,
                     Email := dave.Email } :: post) ∧
        (putStudent containsAt students (.ok 2) (.ok dave)).2.length = students.length :=
  have hex : ∃ s ∈ students, s.ID = 2 :=
    ⟨{ ID := 2, Name := "Alice", Age := 23, Email := "alice@gmail.com" },
      by simp [students], rfl⟩
  ⟨hex, by decide, by decide, by decide,
    putStudent_existing_valid containsAt students 2 dave hex (by decide) (by decide)
      (by decide)⟩

/-- C4: for every store and every id that no stored record has, the update
handler answers 404 "Student not found" and leaves the store as it was,
whatever `c.Bind` would have produced (a valid body, an invalid one, or a
decoding error): the body is not looked at. -/
theorem putStudent_missing (isValidEmail : String → Bool) (store : List Student)
    (sID : Int) (bind : Except Error Student)
    (hno : ∀ s ∈ store, s.ID ≠ sID) :
    putStudent isValidEmail store (.ok sID) bind =
      (.ok ⟨StatusNotFound, .text "Student not found"⟩, store) := by
  have hi : findIndex sID store = none := (findIndex_none_iff sID store).mpr hno
  simp [putStudent, hi]

theorem putStudent_missing_witness :
    (∀ s ∈ students, s.ID ≠ 7) ∧
      putStudent containsAt students (.ok 7) (.error (.lib "unexpected EOF")) =
        (.ok ⟨StatusNotFound, .text "Student not found"⟩, students) :=
  have hno : ∀ s ∈ students, s.ID ≠ 7 := by simp [students]
  ⟨hno, putStudent_missing containsAt students 7 (.error (.lib "unexpected EOF")) hno⟩

/-- C8: for every store, every id some stored record has and every decoded
body that fails a check, the update handler answers 400 with the message of
the first failing check, in the order name, age, email, and the store it
leaves is equal to the one it found (so the targeted record is unchanged). -/
theorem putStudent_existing_invalid (isValidEmail : String → Bool) (store : List Student)
    (sID : Int) (reqBody : Student) (hex : ∃ s ∈ store, s.ID = sID) :
    (reqBody.Name = "" →
      putStudent isValidEmail store (.ok sID) (.ok reqBody) =
        (.ok ⟨StatusBadRequest, .text "Name is required"⟩, store)) ∧
    (reqBody.Name ≠ "" → reqBody.Age ≤ 0 →
      putStudent isValidEmail store (.ok sID) (.ok reqBody) =
        (.ok ⟨StatusBadRequest, .text "Age must be a positive integer"⟩, store)) ∧
    (reqBody.Name ≠ "" → 0 < reqBody.Age → isValidEmail reqBody.Email = false →
      putStudent isValidEmail store (.ok sID) (.ok reqBody) =
        (.ok ⟨StatusBadRequest, .text "Invalid email format"⟩, store)) := by
  obtain ⟨i, hi⟩ := findIndex_of_mem sID store hex
  refine ⟨?_, ?_, ?_⟩
  · intro hname
    simp [putStudent, hi, hname]
  · intro hname hage
    simp [putStudent, hi, hname, hage]
  · intro hname hage hemail
    have hage' : ¬ reqBody.Age ≤ 0 := not_le.mpr hage
    simp [putStudent, hi, hname, hage', hemail]

theorem putStudent_existing_invalid_witness :
    (∃ s ∈ students, s.ID = 2) ∧
    putStudent containsAt students (.ok 2)
        (.ok { ID := 0, Name := "", Age := 30, Email := "dave@gmail.com" }) =
      (.ok ⟨StatusBadRequest, .text "Name is required"⟩, students) ∧
    putStudent containsAt students (.ok 2)
        (.ok { ID := 0, Name := "Dave", Age := 0, Email := "dave@gmail.com" }) =
      (.ok ⟨StatusBadRequest, .text "Age must be a positive integer"⟩, students) ∧
    putStudent containsAt students (.ok 2)
        (.ok { ID := 0, Name := "Dave", Age := 30, Email := "not-an-email" }) =
      (.ok ⟨StatusBadRequest, .text "Invalid email format"⟩, students) :=
  have hex : ∃ s ∈ students, s.ID = 2 :=
    ⟨{ ID := 2, Name := "Alice", Age := 23, Email := "alice@gmail.com" },
      by simp [students], rfl⟩
  ⟨hex,
    (putStudent_existing_invalid containsAt students 2
      { ID := 0, Name := "", Age := 30, Email := "dave@gmail.com" } hex).1 rfl,
    (putStudent_existing_invalid containsAt students 2
      { ID := 0, Name := "Dave", Age := 0, Email := "dave@gmail.com" } hex).2.1
      (by decide) (by decide),
    (putStudent_existing_invalid containsAt students 2
      { ID := 0, Name := "Dave", Age := 30, Email := "not-an-email" } hex).2.2
      (by decide) (by decide) (by decide)⟩

/-! ## Delete (`DELETE /students/:id`) -/

/-- C5: for every store and id, when some stored record has the id the delete
handler answers 200 "student deleted" and the store `pre ++ s :: post`, with
`s` the first record carrying the id, becomes `pre ++ post` (one record
fewer, the others unchanged and in their order); when no record has the id
it answers 404 and the store is unchanged. -/
theorem deleteStudent_spec (store : List Student) (sID : Int) :
    ((∃ s ∈ store, s.ID = sID) →
      ∃ pre s post, store = pre ++ s :: post ∧ s.ID = sID ∧ (∀ t ∈ pre, t.ID ≠ sID) ∧
        deleteStudent store (.ok sID) =
          (.ok ⟨StatusOK, .text "student deleted"⟩, pre ++ post) ∧
        (deleteStudent store (.ok sID)).2.length + 1 = store.length) ∧
    ((∀ s ∈ store, s.ID ≠ sID) →
      deleteStudent store (.ok sID) =
        (.ok ⟨StatusNotFound, .text "Student not found"⟩, store)) := by
  constructor
  · intro hex
    obtain ⟨i, hi⟩ := findIndex_of_mem sID store hex
    obtain ⟨pre, s, post, hl, hlen, hs, hpre⟩ := findIndex_some_split sID store i hi
    have hout : deleteStudent store (.ok sID) =
        (.ok ⟨StatusOK, .text "student deleted"⟩, pre ++ post) := by
      simp only [deleteStudent, hi]
      subst hlen
      rw [hl, take_drop_split]
    refine ⟨pre, s, post, hl, hs, hpre, hout, ?_⟩
    rw [hout, hl]
    simp
    omega
  · intro hno
    have hi : findIndex sID store = none := (findIndex_none_iff sID store).mpr hno
    simp [deleteStudent, hi]

theorem deleteStudent_spec_witness :
    ((∃ s ∈ students, s.ID = 2) ∧
      ∃ pre s post, students = pre ++ s :: post ∧ s.ID = 2 ∧ (∀ t ∈ pre, t.ID ≠ 2) ∧
        deleteStudent students (.ok 2) =
          (.ok ⟨StatusOK, .text "student deleted"⟩, pre ++ post) ∧
        (deleteStudent students (.ok 2)).2.length + 1 = students.length) ∧
    ((∀ s ∈ students, s.ID ≠ 7) ∧
      deleteStudent students (.ok 7) =
        (.ok ⟨StatusNotFound, .text "Student not found"⟩, students)) :=
  have hex : ∃ s ∈ students, s.ID = 2 :=
    ⟨{ ID := 2, Name := "Alice", Age := 23, Email := "alice@gmail.com" },
      by simp [students], rfl⟩
  have hno : ∀ s ∈ students, s.ID ≠ 7 := by simp [students]
  ⟨⟨hex, (deleteStudent_spec students 2).1 hex⟩, ⟨hno, (deleteStudent_spec students 7).2 hno⟩⟩

/-! ## Create (`POST /students`) -/

/-- C7: for every store and decoded body the create handler checks name, then
age, then email; the first failing check gives 400 with its own message and
the store unchanged; when all three pass it answers 201 with the body
renumbered `len(students) + 1` and appends that record; and a 201 answer or
a changed store occurs only when all three checks pass. -/
theorem postStudent_validation (isValidEmail : String → Bool) (store : List Student)
    (reqBody : Student) :
    (reqBody.Name = "" →
      postStudent isValidEmail store (.ok reqBody) =
        (.ok ⟨StatusBadRequest, .text "Name is required"⟩, store)) ∧
    (reqBody.Name ≠ "" → reqBody.Age ≤ 0 →
      postStudent isValidEmail store (.ok reqBody) =
        (.ok ⟨StatusBadRequest, .text "Age must be a positive integer"⟩, store)) ∧
    (reqBody.Name ≠ "" → 0 < reqBody.Age → isValidEmail reqBody.Email = false →
      postStudent isValidEmail store (.ok reqBody) =
        (.ok ⟨StatusBadRequest, .text "Invalid email format"⟩, store)) ∧
    (reqBody.Name ≠ "" → 0 < reqBody.Age → isValidEmail reqBody.Email = true →
      postStudent isValidEmail store (.ok reqBody) =
        (.ok ⟨StatusCreated, .student { reqBody with ID := (store.length : Int) + 1 }⟩,
          store ++ [{ reqBody with ID := (store.length : Int) + 1 }])) ∧
    ((∃ r, (postStudent isValidEmail store (.ok reqBody)).1 = .ok r ∧ r.code = StatusCreated) →
      reqBody.Name ≠ "" ∧ 0 < reqBody.Age ∧ isValidEmail reqBody.Email = true) ∧
    ((postStudent isValidEmail store (.ok reqBody)).2 ≠ store →
      reqBody.Name ≠ "" ∧ 0 < reqBody.Age ∧ isValidEmail reqBody.Email = true) := by
  by_cases hname : reqBody.Name = ""
  · simp [postStudent, hname, StatusBadRequest, StatusCreated]
  · by_cases hage : reqBody.Age ≤ 0
    · have hage' : ¬ 0 < reqBody.Age := not_lt.mpr hage
      simp [postStudent, hname, hage, hage', StatusBadRequest, StatusCreated]
    · have hage' : 0 < reqBody.Age := not_le.mp hage
      cases hemail : isValidEmail reqBody.Email
      · simp [postStudent, hname, hage, hage', hemail, StatusBadRequest, StatusCreated]
      · simp [postStudent, hname, hage, hage', hemail]

theorem postStudent_validation_witness :
    postStudent containsAt students
        (.ok { ID := 0, Name := "", Age := 0, Email := "not-an-email" }) =
      (.ok ⟨StatusBadRequest, .text "Name is required"⟩, students) ∧
    postStudent containsAt students
        (.ok { ID := 0, Name := "Dave", Age := -1, Email := "not-an-email" }) =
      (.ok ⟨StatusBadRequest, .text "Age must be a positive integer"⟩, students) ∧
    postStudent containsAt students
        (.ok { ID := 0, Name := "Dave", Age := 30, Email := "not-an-email" }) =
      (.ok ⟨StatusBadRequest, .text "Invalid email format"⟩, students) ∧
    postStudent containsAt students (.ok dave) =
      (.ok ⟨StatusCreated, .student { dave with ID := (students.length : Int) + 1 }⟩,
        students ++ [{ dave with ID := (students.length : Int) + 1 }]) ∧
    (dave.Name ≠ "" ∧ 0 < dave.Age ∧ containsAt dave.Email = true) ∧
    (dave.Name ≠ "" ∧ 0 < dave.Age ∧ containsAt dave.Email = true) :=
  have hcreated := (postStudent_validation containsAt students dave).2.2.2.1
    (by decide) (by decide) (by decide)
  ⟨(postStudent_validation containsAt students
      { ID := 0, Name := "", Age := 0, Email := "not-an-email" }).1 rfl,
    (postStudent_validation containsAt students
      { ID := 0, Name := "Dave", Age := -1, Email := "not-an-email" }).2.1
      (by decide) (by decide),
    (postStudent_validation containsAt students
      { ID := 0, Name := "Dave", Age := 30, Email := "not-an-email" }).2.2.1
      (by decide) (by decide) (by decide),
    hcreated,
    (postStudent_validation containsAt students dave).2.2.2.2.1
      ⟨_, congrArg Prod.fst hcreated, rfl⟩,
    (postStudent_validation containsAt students dave).2.2.2.2.2
      (by rw [hcreated]; simp)⟩

/-! ## Identifier assignment after a delete -/

/-- Deleting id 1 from the initial store and then creating `dave` leads to a
store with two records of id 3, for every validator accepting the address. -/
theorem reachable_alice_rob_dave3 (isValidEmail : String → Bool)
    (h : isValidEmail "dave@gmail.com" = true) :
    Reachable isValidEmail [alice, rob, dave3] :=
  ⟨[.delete (.ok 1), .create (.ok dave)], by
    simp [serveAll, serve, deleteStudent, postStudent, findIndex, students, dave, h,
      alice, rob, dave3]⟩

theorem reachable_alice_rob (isValidEmail : String → Bool) :
    Reachable isValidEmail [alice, rob] :=
  ⟨[.delete (.ok 1)], by
    simp [serveAll, serve, deleteStudent, findIndex, students, alice, rob]⟩

theorem findStudent_append_fresh (sID : Int) (store : List Student) (r : Student)
    (hfresh : ∀ s ∈ store, s.ID ≠ sID) (hr : r.ID = sID) :
    findStudent sID (store ++ [r]) = some r := by
  induction store with
  | nil => simp [findStudent, hr]
  | cons a rest ih =>
    have ha : a.ID ≠ sID := hfresh a (List.mem_cons_self a rest)
    have hrest : ∀ s ∈ rest, s.ID ≠ sID := fun s hs => hfresh s (List.mem_cons_of_mem a hs)
    simp [findStudent, ha, ih hrest]

/-- Where no stored record already has the id `len(students) + 1`, a create of
a valid body followed by a get of the new id returns the created record. -/
theorem postStudent_then_getStudent_of_fresh (isValidEmail : String → Bool)
    (store : List Student) (reqBody : Student)
    (hname : reqBody.Name ≠ "") (hage : 0 < reqBody.Age)
    (hemail : isValidEmail reqBody.Email = true)
    (hfresh : ∀ s ∈ store, s.ID ≠ (store.length : Int) + 1) :
    getStudent (postStudent isValidEmail store (.ok reqBody)).2
        (.ok ((store.length : Int) + 1)) =
      (.ok ⟨StatusOK, .student { reqBody with ID := (store.length : Int) + 1 }⟩,
        store ++ [{ reqBody with ID := (store.length : Int) + 1 }]) := by
  have hage' : ¬ reqBody.Age ≤ 0 := not_le.mpr hage
  have hpost : postStudent isValidEmail store (.ok reqBody) =
      (.ok ⟨StatusCreated, .student { reqBody with ID := (store.length : Int) + 1 }⟩,
        store ++ [{ reqBody with ID := (store.length : Int) + 1 }]) := by
    simp [postStudent, hname, hage', hemail]
  rw [hpost]
  simp only [getStudent]
  rw [findStudent_append_fresh _ store _ hfresh rfl]

/-- C1 (the code departs from the claim): the store `[alice, rob]` is reachable
(delete id 1); creating the valid body `dave` there answers 201 with id
`len + 1 = 3`, and the get of id 3 issued next answers 200 with `rob`, the
older record of id 3, not with the record just created. -/
theorem create_then_get_returns_other_record (isValidEmail : String → Bool)
    (h : isValidEmail "dave@gmail.com" = true) :
    Reachable isValidEmail [alice, rob] ∧
    postStudent isValidEmail [alice, rob] (.ok dave) =
      (.ok ⟨StatusCreated, .student dave3⟩, [alice, rob, dave3]) ∧
    getStudent [alice, rob, dave3] (.ok 3) =
      (.ok ⟨StatusOK, .student rob⟩, [alice, rob, dave3]) ∧
    rob ≠ dave3 := by
  refine ⟨reachable_alice_rob isValidEmail, ?_, ?_, by decide⟩
  · simp [postStudent, dave, dave3, h]
  · simp [getStudent, findStudent, alice, rob, dave3]

theorem create_then_get_returns_other_record_witness :
    containsAt "dave@gmail.com" = true ∧
    Reachable containsAt [alice, rob] ∧
    postStudent containsAt [alice, rob] (.ok dave) =
      (.ok ⟨StatusCreated, .student dave3⟩, [alice, rob, dave3]) ∧
    getStudent [alice, rob, dave3] (.ok 3) =
      (.ok ⟨StatusOK, .student rob⟩, [alice, rob, dave3]) ∧
    rob ≠ dave3 :=
  ⟨by decide, create_then_get_returns_other_record containsAt (by decide)⟩

/-- C2 (the code departs from the claim): the store `[alice, rob, dave3]` is
reachable (delete id 1, then create `dave`), its ids 2, 3, 3 are not pairwise
distinct, and the id the create assigned there, 3, was the id of `rob`,
a record already in the store. -/
theorem ids_not_distinct_after_delete (isValidEmail : String → Bool)
    (h : isValidEmail "dave@gmail.com" = true) :
    Reachable isValidEmail [alice, rob, dave3] ∧
    ¬ ([alice, rob, dave3].map (fun s => s.ID)).Nodup ∧
    ∃ r, (postStudent isValidEmail [alice, rob] (.ok dave)).1 =
        .ok ⟨StatusCreated, .student r⟩ ∧ ∃ s ∈ [alice, rob], s.ID = r.ID := by
  refine ⟨reachable_alice_rob_dave3 isValidEmail h, by decide, dave3, ?_, rob, ?_, rfl⟩
  · simp [postStudent, dave, dave3, h]
  · simp

theorem ids_not_distinct_after_delete_witness :
    containsAt "dave@gmail.com" = true ∧
    Reachable containsAt [alice, rob, dave3] ∧
    ¬ ([alice, rob, dave3].map (fun s => s.ID)).Nodup ∧
    ∃ r, (postStudent containsAt [alice, rob] (.ok dave)).1 =
        .ok ⟨StatusCreated, .student r⟩ ∧ ∃ s ∈ [alice, rob], s.ID = r.ID :=
  ⟨by decide, ids_not_distinct_after_delete containsAt (by decide)⟩

/-- C6 (the code departs from the claim): in the reachable store
`[alice, rob, dave3]` the delete of id 3 succeeds and removes `rob`, and the
delete of id 3 issued next answers 200 "student deleted" again (it removes
`dave3`), not 404. -/
theorem second_delete_succeeds (isValidEmail : String → Bool)
    (h : isValidEmail "dave@gmail.com" = true) :
    Reachable isValidEmail [alice, rob, dave3] ∧
    deleteStudent [alice, rob, dave3] (.ok 3) =
      (.ok ⟨StatusOK, .text "student deleted"⟩, [alice, dave3]) ∧
    deleteStudent [alice, dave3] (.ok 3) =
      (.ok ⟨StatusOK, .text "student deleted"⟩, [alice]) := by
  refine ⟨reachable_alice_rob_dave3 isValidEmail h, ?_, ?_⟩
  · simp [deleteStudent, findIndex, alice, rob, dave3]
  · simp [deleteStudent, findIndex, alice, dave3]

theorem second_delete_succeeds_witness :
    containsAt "dave@gmail.com" = true ∧
    Reachable containsAt [alice, rob, dave3] ∧
    deleteStudent [alice, rob, dave3] (.ok 3) =
      (.ok ⟨StatusOK, .text "student deleted"⟩, [alice, dave3]) ∧
    deleteStudent [alice, dave3] (.ok 3) =
      (.ok ⟨StatusOK, .text "student deleted"⟩, [alice]) :=
  ⟨by decide, second_delete_succeeds containsAt (by decide)⟩

/-! ## The summary client: reading the stream -/

theorem decodeLoop_not_done (part : Frame) (rest : Stream) (acc : String)
    (h : asBool (part.index "done") ≠ some true) :
    decodeLoop (.ok part :: rest) acc =
      decodeLoop rest (acc ++ concatFragments [part]) := by
  have hacc : (match asString (part.index "response") with
      | some response => acc ++ response
      | none => acc) = acc ++ concatFragments [part] := by
    cases hr : asString (part.index "response") <;> simp [concatFragments, hr]
  rw [decodeLoop, hacc]
  cases hd : asBool (part.index "done") with
  | none => rfl
  | some b =>
    cases b with
    | false => rfl
    | true => exact absurd hd h

theorem decodeLoop_done (part : Frame) (rest : Stream) (acc : String)
    (h : asBool (part.index "done") = some true) :
    decodeLoop (.ok part :: rest) acc = (.ok (acc ++ concatFragments [part]), rest) := by
  have hacc : (match asString (part.index "response") with
      | some response => acc ++ response
      | none => acc) = acc ++ concatFragments [part] := by
    cases hr : asString (part.index "response") <;> simp [concatFragments, hr]
  rw [decodeLoop, hacc, h]

theorem concatFragments_cons (part : Frame) (rest : List Frame) :
    concatFragments (part :: rest) = concatFragments [part] ++ concatFragments rest := by
  simp [concatFragments]

/-- The loop on a stream whose first `done` frame is `last`: it stops there
with the fragments read so far and leaves `post` unread. -/
theorem decodeLoop_until_done (pre : List Frame) (last : Frame) (post : Stream)
    (acc : String)
    (hpre : ∀ f ∈ pre, asBool (f.index "done") ≠ some true)
    (hlast : asBool (last.index "done") = some true) :
    decodeLoop (pre.map .ok ++ .ok last :: post) acc =
      (.ok (acc ++ concatFragments (pre ++ [last])), post) := by
  induction pre generalizing acc with
  | nil => simpa using decodeLoop_done last post acc hlast
  | cons f pre ih =>
    have hf : asBool (f.index "done") ≠ some true := hpre f (List.mem_cons_self f pre)
    have hrest : ∀ g ∈ pre, asBool (g.index "done") ≠ some true :=
      fun g hg => hpre g (List.mem_cons_of_mem f hg)
    have hstep := decodeLoop_not_done f (pre.map .ok ++ .ok last :: post) acc hf
    simp only [List.map_cons, List.cons_append]
    rw [hstep, ih _ hrest, String.append_assoc, ← concatFragments_cons]

/-- A run of frames without a non-empty string fragment concatenates to "". -/
theorem concatFragments_eq_empty (frames : List Frame)
    (h : ∀ f ∈ frames, asString (f.index "response") = none ∨
      asString (f.index "response") = some "") :
    concatFragments frames = "" := by
  induction frames with
  | nil => rfl
  | cons f rest ih =>
    have hrest := ih (fun g hg => h g (List.mem_cons_of_mem f hg))
    rcases h f (List.mem_cons_self f rest) with hf | hf <;>
      simp [concatFragments, hf, hrest]

/-- Every run of decoded frames that contains a `done == true` frame splits at
the first such frame. -/
theorem exists_first_done (frames : List Frame)
    (h : ∃ f ∈ frames, asBool (f.index "done") = some true) :
    ∃ pre last rest, frames = pre ++ last :: rest ∧
      (∀ f ∈ pre, asBool (f.index "done") ≠ some true) ∧
      asBool (last.index "done") = some true := by
  induction frames with
  | nil => simp at h
  | cons a rest ih =>
    by_cases ha : asBool (a.index "done") = some true
    · exact ⟨[], a, rest, by simp, by simp, ha⟩
    · have h' : ∃ f ∈ rest, asBool (f.index "done") = some true := by
        obtain ⟨f, hf, hd⟩ := h
        rcases List.mem_cons.mp hf with rfl | hf
        · exact absurd hd ha
        · exact ⟨f, hf, hd⟩
      obtain ⟨pre, last, post, hl, hpre, hlast⟩ := ih h'
      refine ⟨a :: pre, last, post, by simp [hl], ?_, hlast⟩
      intro f hf
      rcases List.mem_cons.mp hf with rfl | hf
      · exact ha
      · exact hpre f hf

/-- C9: when the upstream answers 200 with a stream `pre ++ last :: post` whose
frames `pre` and `last` decode, `last` being the first frame with
`done == true`, the loop reads exactly `pre` and `last` and leaves `post`
unread; and when the concatenation in order of their string `response`
fragments is non-empty, `generateStudentSummary` returns exactly that text,
whatever `post` holds (decodable frames or not). -/
theorem generateStudentSummary_until_done (up : Upstream) (student : Student)
    (payloadBytes : String) (pre : List Frame) (last : Frame) (post : Stream)
    (hmarshal : up.Marshal [("model", "llama3.2"), ("prompt", prompt student)] =
      .ok payloadBytes)
    (hpost : up.Post "http://localhost:11434/api/generate" "application/json" payloadBytes =
      .ok ⟨200, pre.map .ok ++ .ok last :: post⟩)
    (hpre : ∀ f ∈ pre, asBool (f.index "done") ≠ some true)
    (hlast : asBool (last.index "done") = some true) :
    decodeLoop (pre.map .ok ++ .ok last :: post) "" =
      (.ok (concatFragments (pre ++ [last])), post) ∧
    (concatFragments (pre ++ [last]) ≠ "" →
      generateStudentSummary up student = .ok (concatFragments (pre ++ [last]))) := by
  have hloop : decodeLoop (pre.map .ok ++ .ok last :: post) "" =
      (.ok (concatFragments (pre ++ [last])), post) := by
    rw [decodeLoop_until_done pre last post "" hpre hlast, String.empty_append]
  refine ⟨hloop, ?_⟩
  intro hne
  simp [generateStudentSummary, hmarshal, hpost, hloop, hne]

theorem generateStudentSummary_until_done_witness :
    generateStudentSummary
        { Marshal := fun _ => .ok "payload",
          Post := fun _ _ _ => .ok ⟨200,
            [.ok [("response", .string "Hi ")],
             .ok [("response", .string "there"), ("done", .bool true)],
             .ok [("response", .string " and more"), ("done", .bool true)],
             .error (.lib "invalid character")]⟩ }
        rob = .ok "Hi there" :=
  (generateStudentSummary_until_done
      { Marshal := fun _ => .ok "payload",
        Post := fun _ _ _ => .ok ⟨200,
          [.ok [("response", .string "Hi ")],
           .ok [("response", .string "there"), ("done", .bool true)],
           .ok [("response", .string " and more"), ("done", .bool true)],
           .error (.lib "invalid character")]⟩ }
      rob "payload"
      [[("response", .string "Hi ")]]
      [("response", .string "there"), ("done", .bool true)]
      [.ok [("response", .string " and more"), ("done", .bool true)],
       .error (.lib "invalid character")]
      rfl rfl (by decide) (by decide)).2 (by decide)

/-- C10: when the upstream answers 200 with a stream whose frames up to and
including the first `done == true` frame all decode and none of them carries
a non-empty string `response` (the key is missing, its value is not a
string, or it is ""), `generateStudentSummary` fails with the
empty-response error, so it returns no text. -/
theorem generateStudentSummary_empty (up : Upstream) (student : Student)
    (payloadBytes : String) (pre : List Frame) (last : Frame) (post : Stream)
    (hmarshal : up.Marshal [("model", "llama3.2"), ("prompt", prompt student)] =
      .ok payloadBytes)
    (hpost : up.Post "http://localhost:11434/api/generate" "application/json" payloadBytes =
      .ok ⟨200, pre.map .ok ++ .ok last :: post⟩)
    (hpre : ∀ f ∈ pre, asBool (f.index "done") ≠ some true)
    (hlast : asBool (last.index "done") = some true)
    (hempty : ∀ f ∈ pre ++ [last], asString (f.index "response") = none ∨
      asString (f.index "response") = some "") :
    generateStudentSummary up student = .error .emptyResponse := by
  have hloop : decodeLoop (pre.map .ok ++ .ok last :: post) "" = (.ok "", post) := by
    rw [decodeLoop_until_done pre last post "" hpre hlast,
      concatFragments_eq_empty _ hempty]
    rfl
  simp [generateStudentSummary, hmarshal, hpost, hloop]

theorem generateStudentSummary_empty_witness :
    generateStudentSummary
        { Marshal := fun _ => .ok "payload",
          Post := fun _ _ _ => .ok ⟨200,
            [.ok [("model", .string "llama3.2")],
             .ok [("response", .other "42")],
             .ok [("response", .string ""), ("done", .bool true)],
             .ok [("response", .string "late"), ("done", .bool true)]]⟩ }
        rob = .error .emptyResponse :=
  generateStudentSummary_empty
    { Marshal := fun _ => .ok "payload",
      Post := fun _ _ _ => .ok ⟨200,
        [.ok [("model", .string "llama3.2")],
         .ok [("response", .other "42")],
         .ok [("response", .string ""), ("done", .bool true)],
         .ok [("response", .string "late"), ("done", .bool true)]]⟩ }
    rob "payload"
    [[("model", .string "llama3.2")], [("response", .other "42")]]
    [("response", .string ""), ("done", .bool true)]
    [.ok [("response", .string "late"), ("done", .bool true)]]
    rfl rfl (by decide) (by decide) (by decide)

/-! ## Read-only handlers (`GET /students`, `GET /students/:id`) -/

theorem findStudent_none_iff (sID : Int) (l : List Student) :
    findStudent sID l = none ↔ ∀ s ∈ l, s.ID ≠ sID := by
  induction l with
  | nil => simp [findStudent]
  | cons a rest ih =>
    by_cases h : a.ID = sID
    · simp [findStudent, h]
    · simp [findStudent, h, ih]

theorem findStudent_split (sID : Int) (pre : List Student) (s : Student)
    (post : List Student) (hs : s.ID = sID) (hpre : ∀ t ∈ pre, t.ID ≠ sID) :
    findStudent sID (pre ++ s :: post) = some s := by
  induction pre with
  | nil => simp [findStudent, hs]
  | cons a pre ih =>
    have ha : a.ID ≠ sID := hpre a (List.mem_cons_self a pre)
    have hrest : ∀ t ∈ pre, t.ID ≠ sID := fun t ht => hpre t (List.mem_cons_of_mem a ht)
    simp [findStudent, ha, ih hrest]

theorem findStudent_some_mem (sID : Int) (l : List Student) (s : Student)
    (h : findStudent sID l = some s) : s ∈ l ∧ s.ID = sID := by
  induction l with
  | nil => simp [findStudent] at h
  | cons a rest ih =>
    by_cases ha : a.ID = sID
    · simp [findStudent, ha] at h
      subst h
      exact ⟨List.mem_cons_self _ _, ha⟩
    · simp [findStudent, ha] at h
      exact ⟨List.mem_cons_of_mem a (ih h).1, (ih h).2⟩

/-- C13: for every store and integer id, when some stored record has the id the
get handler answers 200 with the first such record in storage order (whose
id is the requested one); when none has it the handler answers 404
"Student not found"; so a 200 answer occurs exactly when the id is stored.
The list handler answers 200 with all records in storage order.  Neither
handler changes the store. -/
theorem getStudent_spec (store : List Student) (sID : Int) :
    ((∃ s ∈ store, s.ID = sID) →
      ∃ pre s post, store = pre ++ s :: post ∧ s.ID = sID ∧ (∀ t ∈ pre, t.ID ≠ sID) ∧
        getStudent store (.ok sID) = (.ok ⟨StatusOK, .student s⟩, store)) ∧
    ((∀ s ∈ store, s.ID ≠ sID) →
      getStudent store (.ok sID) =
        (.ok ⟨StatusNotFound, .text "Student not found"⟩, store)) ∧
    ((∃ r, (getStudent store (.ok sID)).1 = .ok r ∧ r.code = StatusOK) ↔
      ∃ s ∈ store, s.ID = sID) ∧
    getStudents store = (.ok ⟨StatusOK, .students store⟩, store) ∧
    (∀ atoi, (getStudent store atoi).2 = store) := by
  have hfound : (∃ s ∈ store, s.ID = sID) →
      ∃ pre s post, store = pre ++ s :: post ∧ s.ID = sID ∧ (∀ t ∈ pre, t.ID ≠ sID) ∧
        getStudent store (.ok sID) = (.ok ⟨StatusOK, .student s⟩, store) := by
    intro hex
    obtain ⟨i, hi⟩ := findIndex_of_mem sID store hex
    obtain ⟨pre, s, post, hl, _, hs, hpre⟩ := findIndex_some_split sID store i hi
    refine ⟨pre, s, post, hl, hs, hpre, ?_⟩
    have hf : findStudent sID store = some s := by
      rw [hl]
      exact findStudent_split sID pre s post hs hpre
    simp [getStudent, hf]
  have hmissing : (∀ s ∈ store, s.ID ≠ sID) →
      getStudent store (.ok sID) =
        (.ok ⟨StatusNotFound, .text "Student not found"⟩, store) := by
    intro hno
    have hf : findStudent sID store = none := (findStudent_none_iff sID store).mpr hno
    simp [getStudent, hf]
  refine ⟨hfound, hmissing, ?_, rfl, ?_⟩
  · constructor
    · rintro ⟨r, hr, hcode⟩
      by_contra hno
      have hno' : ∀ s ∈ store, s.ID ≠ sID := fun s hs hid => hno ⟨s, hs, hid⟩
      rw [hmissing hno'] at hr
      simp only [Except.ok.injEq] at hr
      rw [← hr] at hcode
      simp [StatusNotFound, StatusOK] at hcode
    · intro hex
      obtain ⟨_, s, _, _, _, _, hget⟩ := hfound hex
      exact ⟨⟨StatusOK, .student s⟩, by rw [hget], rfl⟩
  · intro atoi
    cases atoi with
    | error err => rfl
    | ok n =>
      simp only [getStudent]
      cases findStudent n store <;> rfl

theorem getStudent_spec_witness :
    ((∃ s ∈ students, s.ID = 2) ∧
      ∃ pre s post, students = pre ++ s :: post ∧ s.ID = 2 ∧ (∀ t ∈ pre, t.ID ≠ 2) ∧
        getStudent students (.ok 2) = (.ok ⟨StatusOK, .student s⟩, students)) ∧
    ((∀ s ∈ students, s.ID ≠ 7) ∧
      getStudent students (.ok 7) =
        (.ok ⟨StatusNotFound, .text "Student not found"⟩, students)) :=
  have hex : ∃ s ∈ students, s.ID = 2 := ⟨alice, by simp [students, alice], rfl⟩
  have hno : ∀ s ∈ students, s.ID ≠ 7 := by simp [students]
  ⟨⟨hex, (getStudent_spec students 2).1 hex⟩, ⟨hno, (getStudent_spec students 7).2.1 hno⟩⟩

/-! ## Summary (`GET /students/:id/summary`) -/

/-- C11: for every store and id the summary handler answers 404
"Student not found" when no record has the id; otherwise, with `s` the first
record carrying the id, it answers 500 with the fixed text
"Failed to generate summary" for every error of `generateStudentSummary` on
`s` (the error itself does not appear in the answer) and 200 with the summary
when the client returns text; the store is unchanged in every case. -/
theorem getStudentSummary_spec (up : Upstream) (store : List Student) (sID : Int) :
    ((∀ s ∈ store, s.ID ≠ sID) →
      getStudentSummary up store (.ok sID) =
        (.ok ⟨StatusNotFound, .text "Student not found"⟩, store)) ∧
    (∀ pre s post, store = pre ++ s :: post → s.ID = sID → (∀ t ∈ pre, t.ID ≠ sID) →
      (∀ err, generateStudentSummary up s = .error err →
        getStudentSummary up store (.ok sID) =
          (.ok ⟨StatusInternalServerError, .text "Failed to generate summary"⟩, store)) ∧
      (∀ text, generateStudentSummary up s = .ok text →
        getStudentSummary up store (.ok sID) =
          (.ok ⟨StatusOK, .summary text⟩, store))) ∧
    (∀ atoi, (getStudentSummary up store atoi).2 = store) := by
  refine ⟨?_, ?_, ?_⟩
  · intro hno
    have hf : findStudent sID store = none := (findStudent_none_iff sID store).mpr hno
    simp [getStudentSummary, hf]
  · intro pre s post hl hs hpre
    have hf : findStudent sID store = some s := by
      rw [hl]
      exact findStudent_split sID pre s post hs hpre
    constructor
    · intro err herr
      simp [getStudentSummary, hf, herr]
    · intro text htext
      simp [getStudentSummary, hf, htext]
  · intro atoi
    cases atoi with
    | error err => rfl
    | ok n =>
      cases hf : findStudent n store with
      | none => simp [getStudentSummary, hf]
      | some s =>
        cases hg : generateStudentSummary up s <;> simp [getStudentSummary, hf, hg]

theorem getStudentSummary_spec_witness :
    ((∀ s ∈ students, s.ID ≠ 7) ∧
      getStudentSummary upstreamHiThere students (.ok 7) =
        (.ok ⟨StatusNotFound, .text "Student not found"⟩, students)) ∧
    (generateStudentSummary upstreamStatus500 alice = .error (.apiRequestFailed 500) ∧
      getStudentSummary upstreamStatus500 students (.ok 2) =
        (.ok ⟨StatusInternalServerError, .text "Failed to generate summary"⟩, students)) ∧
    (generateStudentSummary upstreamHiThere alice = .ok "Hi there" ∧
      getStudentSummary upstreamHiThere students (.ok 2) =
        (.ok ⟨StatusOK, .summary "Hi there"⟩, students)) :=
  have hno : ∀ s ∈ students, s.ID ≠ 7 := by simp [students]
  have hpre : ∀ t ∈ [rahul], t.ID ≠ 2 := by simp [rahul]
  have h500 : generateStudentSummary upstreamStatus500 alice =
      .error (.apiRequestFailed 500) := rfl
  have hhi : generateStudentSummary upstreamHiThere alice = .ok "Hi there" := rfl
  ⟨⟨hno, (getStudentSummary_spec upstreamHiThere students 7).1 hno⟩,
    ⟨h500, ((getStudentSummary_spec upstreamStatus500 students 2).2.1 [rahul] alice [rob] rfl rfl
      hpre).1 _ h500⟩,
    ⟨hhi, ((getStudentSummary_spec upstreamHiThere students 2).2.1 [rahul] alice [rob] rfl rfl
      hpre).2 _ hhi⟩⟩

/-! ## The id path parameter -/

/-- C12 (counterexample): for the path parameter `abc` none of the four
handlers writes a 400 response: each returns the error of `strconv.Atoi` to
the framework. -/
theorem non_numeric_id_not_answered_400 :
    (¬ ∃ r, (getStudent students (.error atoiError)).1 = .ok r ∧
        r.code = StatusBadRequest) ∧
    (¬ ∃ r, (putStudent containsAt students (.error atoiError) (.ok dave)).1 = .ok r ∧
        r.code = StatusBadRequest) ∧
    (¬ ∃ r, (deleteStudent students (.error atoiError)).1 = .ok r ∧
        r.code = StatusBadRequest) ∧
    (¬ ∃ r, (getStudentSummary upstreamHiThere students (.error atoiError)).1 = .ok r ∧
        r.code = StatusBadRequest) := by
  refine ⟨?_, ?_, ?_, ?_⟩ <;>
    · rintro ⟨r, hr, _⟩
      simp [getStudent, putStudent, deleteStudent, getStudentSummary] at hr

/-- C12 (amended): on each route with an id path parameter (get, update,
delete, summary), when `strconv.Atoi` fails on the parameter the handler
writes no response of its own: it returns that error unchanged to the
framework, whatever the store holds (no lookup takes place) and whatever the
body is, and the store is left as it was. -/
theorem non_numeric_id_returns_error (isValidEmail : String → Bool) (up : Upstream)
    (store : List Student) (err : Error) (bind : Except Error Student) :
    getStudent store (.error err) = (.error err, store) ∧
    putStudent isValidEmail store (.error err) bind = (.error err, store) ∧
    deleteStudent store (.error err) = (.error err, store) ∧
    getStudentSummary up store (.error err) = (.error err, store) :=
  ⟨rfl, rfl, rfl, rfl⟩

/-! ## The summary client: streams that do not complete -/

theorem decodeLoop_until_error (pre : List Frame) (err : Error) (post : Stream)
    (acc : String) (hpre : ∀ f ∈ pre, asBool (f.index "done") ≠ some true) :
    decodeLoop (pre.map .ok ++ .error err :: post) acc = (.error err, post) := by
  induction pre generalizing acc with
  | nil => simp [decodeLoop]
  | cons f pre ih =>
    have hf : asBool (f.index "done") ≠ some true := hpre f (List.mem_cons_self f pre)
    have hrest : ∀ g ∈ pre, asBool (g.index "done") ≠ some true :=
      fun g hg => hpre g (List.mem_cons_of_mem f hg)
    simp only [List.map_cons, List.cons_append]
    rw [decodeLoop_not_done f _ acc hf, ih _ hrest]

theorem decodeLoop_no_done (frames : List Frame) (acc : String)
    (h : ∀ f ∈ frames, asBool (f.index "done") ≠ some true) :
    decodeLoop (frames.map .ok) acc = (.error EOF, []) := by
  induction frames generalizing acc with
  | nil => simp [decodeLoop]
  | cons f rest ih =>
    have hf : asBool (f.index "done") ≠ some true := h f (List.mem_cons_self f rest)
    have hrest : ∀ g ∈ rest, asBool (g.index "done") ≠ some true :=
      fun g hg => h g (List.mem_cons_of_mem f hg)
    simp only [List.map_cons]
    rw [decodeLoop_not_done f _ acc hf, ih _ hrest]

/-- C14: when the upstream answers 200 and a frame fails to decode before any
`done == true` frame has been read, `generateStudentSummary` returns the
error of that `Decode`; no text is returned, so the fragments of the earlier
frames are dropped, and the frames after the failing one play no part. -/
theorem generateStudentSummary_decode_error (up : Upstream) (student : Student)
    (payloadBytes : String) (pre : List Frame) (err : Error) (post : Stream)
    (hmarshal : up.Marshal [("model", "llama3.2"), ("prompt", prompt student)] =
      .ok payloadBytes)
    (hpost : up.Post "http://localhost:11434/api/generate" "application/json" payloadBytes =
      .ok ⟨200, pre.map .ok ++ .error err :: post⟩)
    (hpre : ∀ f ∈ pre, asBool (f.index "done") ≠ some true) :
    generateStudentSummary up student = .error err := by
  have hloop := decodeLoop_until_error pre err post "" hpre
  simp [generateStudentSummary, hmarshal, hpost, hloop]

theorem generateStudentSummary_decode_error_witness :
    concatFragments [[("response", .string "Hi ")]] = "Hi " ∧
    generateStudentSummary upstreamBrokenFrame rob = .error (.lib "invalid character") :=
  ⟨rfl, generateStudentSummary_decode_error upstreamBrokenFrame rob "payload"
    [[("response", .string "Hi ")]] (.lib "invalid character")
    [.ok [("response", .string "there"), ("done", .bool true)]]
    rfl rfl (by decide)⟩

/-- C15: when the upstream answers 200 with a finite stream of frames that all
decode, and no frame has `done == true`, `generateStudentSummary` returns the
end-of-stream error of `Decode` and no text, whatever fragments it had
accumulated; hence whenever it returns text on such a stream, the stream
holds a frame with `done == true`. -/
theorem generateStudentSummary_no_done (up : Upstream) (student : Student)
    (payloadBytes : String) (frames : List Frame)
    (hmarshal : up.Marshal [("model", "llama3.2"), ("prompt", prompt student)] =
      .ok payloadBytes)
    (hpost : up.Post "http://localhost:11434/api/generate" "application/json" payloadBytes =
      .ok ⟨200, frames.map .ok⟩) :
    ((∀ f ∈ frames, asBool (f.index "done") ≠ some true) →
      generateStudentSummary up student = .error EOF) ∧
    (∀ text, generateStudentSummary up student = .ok text →
      ∃ f ∈ frames, asBool (f.index "done") = some true) := by
  have hfirst : (∀ f ∈ frames, asBool (f.index "done") ≠ some true) →
      generateStudentSummary up student = .error EOF := by
    intro hnone
    have hloop := decodeLoop_no_done frames "" hnone
    simp [generateStudentSummary, hmarshal, hpost, hloop]
  refine ⟨hfirst, ?_⟩
  intro text htext
  by_contra hno
  have hnone : ∀ f ∈ frames, asBool (f.index "done") ≠ some true :=
    fun f hf hd => hno ⟨f, hf, hd⟩
  rw [hfirst hnone] at htext
  exact absurd htext (by simp)

theorem generateStudentSummary_no_done_witness :
    concatFragments
        [[("response", .string "Hi ")],
         [("response", .string "there"), ("done", .bool false)]] = "Hi there" ∧
    generateStudentSummary upstreamNeverDone rob = .error EOF ∧
    generateStudentSummary upstreamHiThere rob = .ok "Hi there" ∧
    ∃ f ∈ [[("response", Value.string "Hi ")],
           [("response", .string "there"), ("done", .bool true)],
           [("response", .string " and more"), ("done", .bool true)]],
      asBool (Frame.index f "done") = some true :=
  ⟨rfl, (generateStudentSummary_no_done upstreamNeverDone rob "payload"
    [[("response", .string "Hi ")],
     [("response", .string "there"), ("done", .bool false)]]
    rfl rfl).1 (by decide),
    rfl, (generateStudentSummary_no_done upstreamHiThere rob "payload"
    [[("response", .string "Hi ")],
     [("response", .string "there"), ("done", .bool true)],
     [("response", .string " and more"), ("done", .bool true)]]
    rfl rfl).2 "Hi there" rfl⟩

/-! ## Invariants of the store -/

theorem assignFields_map_ID (reqBody : Student) (i : Nat) (l : List Student) :
    (assignFields reqBody i l).map (fun s => s.ID) = l.map (fun s => s.ID) := by
  induction l generalizing i with
  | nil => cases i <;> rfl
  | cons a rest ih =>
    cases i with
    | zero => simp [assignFields]
    | succ j => simp [assignFields, ih j]

theorem assignFields_length (reqBody : Student) (i : Nat) (l : List Student) :
    (assignFields reqBody i l).length = l.length := by
  have h := congrArg List.length (assignFields_map_ID reqBody i l)
  simpa using h

theorem mem_assignFields (reqBody : Student) (i : Nat) (l : List Student) (s : Student)
    (h : s ∈ assignFields reqBody i l) :
    s ∈ l ∨ (s.Name = reqBody.Name ∧ s.Age = reqBody.Age ∧ s.Email = reqBody.Email) := by
  induction l generalizing i with
  | nil => cases i <;> simp [assignFields] at h
  | cons a rest ih =>
    cases i with
    | zero =>
      simp only [assignFields, List.mem_cons] at h
      rcases h with rfl | h
      · exact Or.inr ⟨rfl, rfl, rfl⟩
      · exact Or.inl (List.mem_cons_of_mem a h)
    | succ j =>
      simp only [assignFields, List.mem_cons] at h
      rcases h with rfl | h
      · exact Or.inl (List.mem_cons_self _ _)
      · rcases ih j h with h | h
        · exact Or.inl (List.mem_cons_of_mem a h)
        · exact Or.inr h

/-- The store left by the create handler: the old one, or the old one with the
renumbered body appended when the body passes the three checks. -/
theorem postStudent_store (isValidEmail : String → Bool) (store : List Student)
    (bind : Except Error Student) :
    (postStudent isValidEmail store bind).2 = store ∨
    ∃ reqBody, bind = .ok reqBody ∧ ValidRecord isValidEmail reqBody ∧
      (postStudent isValidEmail store bind).2 =
        store ++ [{ reqBody with ID := (store.length : Int) + 1 }] := by
  cases bind with
  | error err => exact Or.inl rfl
  | ok reqBody =>
    by_cases hname : reqBody.Name = ""
    · exact Or.inl (by simp [postStudent, hname])
    · by_cases hage : reqBody.Age ≤ 0
      · exact Or.inl (by simp [postStudent, hname, hage])
      · cases hemail : isValidEmail reqBody.Email
        · exact Or.inl (by simp [postStudent, hname, hage, hemail])
        · exact Or.inr ⟨reqBody, rfl, ⟨hname, not_le.mp hage, hemail⟩,
            by simp [postStudent, hname, hage, hemail]⟩

/-- The store left by the update handler: the old one, or the old one with the
fields of a valid body assigned at one position. -/
theorem putStudent_store (isValidEmail : String → Bool) (store : List Student)
    (atoi : Except Error Int) (bind : Except Error Student) :
    (putStudent isValidEmail store atoi bind).2 = store ∨
    ∃ reqBody i, ValidRecord isValidEmail reqBody ∧
      (putStudent isValidEmail store atoi bind).2 = assignFields reqBody i store := by
  cases atoi with
  | error err => exact Or.inl rfl
  | ok sID =>
    cases hi : findIndex sID store with
    | none => exact Or.inl (by simp [putStudent, hi])
    | some i =>
      cases bind with
      | error err => exact Or.inl (by simp [putStudent, hi])
      | ok reqBody =>
        by_cases hname : reqBody.Name = ""
        · exact Or.inl (by simp [putStudent, hi, hname])
        · by_cases hage : reqBody.Age ≤ 0
          · exact Or.inl (by simp [putStudent, hi, hname, hage])
          · cases hemail : isValidEmail reqBody.Email
            · exact Or.inl (by simp [putStudent, hi, hname, hage, hemail])
            · exact Or.inr ⟨reqBody, i, ⟨hname, not_le.mp hage, hemail⟩,
                by simp [putStudent, hi, hname, hage, hemail]⟩

/-- The records left by the delete handler are records of the old store. -/
theorem deleteStudent_store_subset (store : List Student) (atoi : Except Error Int)
    (s : Student) (h : s ∈ (deleteStudent store atoi).2) : s ∈ store := by
  cases atoi with
  | error err => exact h
  | ok sID =>
    cases hi : findIndex sID store with
    | none => simpa [deleteStudent, hi] using h
    | some i =>
      simp only [deleteStudent, hi, List.mem_append] at h
      rcases h with h | h
      · exact List.mem_of_mem_take h
      · exact List.mem_of_mem_drop h

/-- The answer of the create handler to a decoded body: a 400, or 201 with the
body renumbered `len(students) + 1`. -/
theorem postStudent_validation_cases (isValidEmail : String → Bool) (store : List Student)
    (reqBody : Student) :
    (∃ msg, (postStudent isValidEmail store (.ok reqBody)).1 =
      .ok ⟨StatusBadRequest, .text msg⟩) ∨
    (postStudent isValidEmail store (.ok reqBody)).1 =
      .ok ⟨StatusCreated, .student { reqBody with ID := (store.length : Int) + 1 }⟩ := by
  by_cases hname : reqBody.Name = ""
  · exact Or.inl ⟨"Name is required", by simp [postStudent, hname]⟩
  · by_cases hage : reqBody.Age ≤ 0
    · exact Or.inl ⟨"Age must be a positive integer", by simp [postStudent, hname, hage]⟩
    · cases hemail : isValidEmail reqBody.Email
      · exact Or.inl ⟨"Invalid email format", by simp [postStudent, hname, hage, hemail]⟩
      · exact Or.inr (by simp [postStudent, hname, hage, hemail])

theorem serve_valid (isValidEmail : String → Bool) (store : List Student) (req : Request)
    (h : ∀ s ∈ store, ValidRecord isValidEmail s) :
    ∀ s ∈ serve isValidEmail store req, ValidRecord isValidEmail s := by
  intro s hs
  cases req with
  | create bind =>
    rcases postStudent_store isValidEmail store bind with hst | ⟨reqBody, _, hvalid, hst⟩
    · simp only [serve, hst] at hs
      exact h s hs
    · simp only [serve, hst, List.mem_append, List.mem_singleton] at hs
      rcases hs with hs | rfl
      · exact h s hs
      · exact hvalid
  | update atoi bind =>
    rcases putStudent_store isValidEmail store atoi bind with hst | ⟨reqBody, i, hvalid, hst⟩
    · simp only [serve, hst] at hs
      exact h s hs
    · simp only [serve, hst] at hs
      rcases mem_assignFields reqBody i store s hs with hs | ⟨hn, ha, he⟩
      · exact h s hs
      · exact ⟨hn ▸ hvalid.1, ha ▸ hvalid.2.1, he ▸ hvalid.2.2⟩
  | delete atoi =>
    exact h s (deleteStudent_store_subset store atoi s hs)

theorem serveAll_valid (isValidEmail : String → Bool) (reqs : List Request)
    (store : List Student) (h : ∀ s ∈ store, ValidRecord isValidEmail s) :
    ∀ s ∈ serveAll isValidEmail store reqs, ValidRecord isValidEmail s := by
  induction reqs generalizing store with
  | nil => exact h
  | cons req rest ih =>
    simp only [serveAll, List.foldl_cons]
    exact ih _ (serve_valid isValidEmail store req h)

/-- C17: when the validator accepts the emails of the three initial records,
every record of every store reachable from the initial store by create,
update and delete requests has a non-empty name, an age above 0 and an email
the validator accepts. -/
theorem reachable_records_valid (isValidEmail : String → Bool)
    (hrahul : isValidEmail "rahul@gmail.com" = true)
    (halice : isValidEmail "alice@gmail.com" = true)
    (hrob : isValidEmail "rob@gmail.com" = true)
    (store : List Student) (hreach : Reachable isValidEmail store) :
    ∀ s ∈ store, s.Name ≠ "" ∧ 0 < s.Age ∧ isValidEmail s.Email = true := by
  obtain ⟨reqs, rfl⟩ := hreach
  have hinit : ∀ s ∈ students, ValidRecord isValidEmail s := by
    intro s hs
    simp only [students, List.mem_cons, List.mem_singleton, List.not_mem_nil, or_false] at hs
    rcases hs with rfl | rfl | rfl
    · exact ⟨by decide, by decide, hrahul⟩
    · exact ⟨by decide, by decide, halice⟩
    · exact ⟨by decide, by decide, hrob⟩
  exact serveAll_valid isValidEmail reqs students hinit

theorem reachable_records_valid_witness :
    containsAt "rahul@gmail.com" = true ∧ containsAt "alice@gmail.com" = true ∧
    containsAt "rob@gmail.com" = true ∧ Reachable containsAt [alice, rob, dave3] ∧
    ∀ s ∈ [alice, rob, dave3], s.Name ≠ "" ∧ 0 < s.Age ∧ containsAt s.Email = true :=
  ⟨by decide, by decide, by decide, reachable_alice_rob_dave3 containsAt (by decide),
    reachable_records_valid containsAt (by decide) (by decide) (by decide)
      [alice, rob, dave3] (reachable_alice_rob_dave3 containsAt (by decide))⟩

theorem numbered_append (store : List Student) (r : Student)
    (h : NumberedByPosition store) (hr : r.ID = (store.length : Int) + 1) :
    NumberedByPosition (store ++ [r]) := by
  unfold NumberedByPosition at *
  rw [List.map_append, h, List.length_append, List.length_singleton, List.range_succ,
    List.map_append]
  simp [hr]

theorem serve_numbered (isValidEmail : String → Bool) (store : List Student)
    (req : Request) (hreq : req.isDelete = false) (h : NumberedByPosition store) :
    NumberedByPosition (serve isValidEmail store req) := by
  cases req with
  | create bind =>
    rcases postStudent_store isValidEmail store bind with hst | ⟨reqBody, _, _, hst⟩
    · simpa only [serve, hst] using h
    · simp only [serve, hst]
      exact numbered_append store _ h rfl
  | update atoi bind =>
    rcases putStudent_store isValidEmail store atoi bind with hst | ⟨reqBody, i, _, hst⟩
    · simpa only [serve, hst] using h
    · simp only [serve, hst]
      unfold NumberedByPosition at *
      rw [assignFields_map_ID, assignFields_length, h]
  | delete atoi => simp [Request.isDelete] at hreq

theorem serveAll_numbered (isValidEmail : String → Bool) (reqs : List Request)
    (hreqs : ∀ r ∈ reqs, r.isDelete = false) (store : List Student)
    (h : NumberedByPosition store) :
    NumberedByPosition (serveAll isValidEmail store reqs) := by
  induction reqs generalizing store with
  | nil => exact h
  | cons req rest ih =>
    simp only [serveAll, List.foldl_cons]
    exact ih (fun r hr => hreqs r (List.mem_cons_of_mem req hr)) _
      (serve_numbered isValidEmail store req (hreqs req (List.mem_cons_self req rest)) h)

theorem numbered_getElem (store : List Student) (h : NumberedByPosition store)
    (i : Nat) (s : Student) (hs : store[i]? = some s) : s.ID = (i : Int) + 1 := by
  have hlt : i < store.length := by
    by_contra hge
    rw [List.getElem?_eq_none (not_lt.mp hge)] at hs
    exact absurd hs (by simp)
  have h1 : (store.map (fun s => s.ID))[i]? = some s.ID := by
    rw [List.getElem?_map, hs]
    rfl
  rw [h, List.getElem?_map, List.getElem?_range hlt] at h1
  simpa using h1.symm

theorem numbered_mem_le (store : List Student) (h : NumberedByPosition store)
    (s : Student) (hs : s ∈ store) : s.ID < (store.length : Int) + 1 := by
  have hmem : s.ID ∈ store.map (fun s => s.ID) := List.mem_map_of_mem _ hs
  rw [h, List.mem_map] at hmem
  obtain ⟨i, hi, hid⟩ := hmem
  have := List.mem_range.mp hi
  omega

/-- C16: in every store reachable from the initial three records by create and
update requests only, the record at 0-based position `i` has id `i + 1`; so
the ids are pairwise distinct and strictly increasing in storage order, and
the id a create assigns there is strictly greater than every stored id. -/
theorem ids_follow_positions (isValidEmail : String → Bool) (store : List Student)
    (hreach : ReachableWithoutDelete isValidEmail store) :
    (∀ (i : Nat) (s : Student), store[i]? = some s → s.ID = (i : Int) + 1) ∧
    (store.map (fun s => s.ID)).Nodup ∧
    (store.map (fun s => s.ID)).Pairwise (fun a b => a < b) ∧
    (∀ reqBody r,
      (postStudent isValidEmail store (.ok reqBody)).1 = .ok ⟨StatusCreated, .student r⟩ →
      r.ID = (store.length : Int) + 1 ∧ ∀ s ∈ store, s.ID < r.ID) := by
  obtain ⟨reqs, hreqs, rfl⟩ := hreach
  have hinit : NumberedByPosition students := by
    simp [NumberedByPosition, students, List.range_succ]
  have hnum := serveAll_numbered isValidEmail reqs hreqs students hinit
  have hpair : ((serveAll isValidEmail students reqs).map (fun s => s.ID)).Pairwise
      (fun a b => a < b) := by
    rw [hnum]
    exact List.Pairwise.map _ (fun a b hab => Int.add_lt_add_right (Int.ofNat_lt.mpr hab) 1)
      (List.pairwise_lt_range _)
  refine ⟨numbered_getElem _ hnum, ?_, hpair, ?_⟩
  · exact hpair.imp (fun hab => ne_of_lt hab)
  · intro reqBody r hr
    have hid : r.ID = ((serveAll isValidEmail students reqs).length : Int) + 1 := by
      rcases (postStudent_validation_cases isValidEmail _ reqBody) with ⟨msg, hbad⟩ | hgood
      · rw [hbad] at hr
        simp [StatusBadRequest, StatusCreated] at hr
      · rw [hgood] at hr
        simp only [Except.ok.injEq, Response.mk.injEq, Body.student.injEq, true_and] at hr
        rw [← hr]
    exact ⟨hid, fun s hs => by rw [hid]; exact numbered_mem_le _ hnum s hs⟩

theorem ids_follow_positions_witness :
    ReachableWithoutDelete containsAt
      (serveAll containsAt students [.create (.ok dave), .update (.ok 2) (.ok dave)]) ∧
    (∀ (i : Nat) (s : Student),
      (serveAll containsAt students
        [.create (.ok dave), .update (.ok 2) (.ok dave)])[i]? = some s →
      s.ID = (i : Int) + 1) ∧
    ((serveAll containsAt students
        [.create (.ok dave), .update (.ok 2) (.ok dave)]).map (fun s => s.ID)).Nodup ∧
    ((serveAll containsAt students
        [.create (.ok dave), .update (.ok 2) (.ok dave)]).map (fun s => s.ID)).Pairwise
      (fun a b => a < b) ∧
    (∀ reqBody r,
      (postStudent containsAt
          (serveAll containsAt students [.create (.ok dave), .update (.ok 2) (.ok dave)])
          (.ok reqBody)).1 = .ok ⟨StatusCreated, .student r⟩ →
      r.ID = ((serveAll containsAt students
          [.create (.ok dave), .update (.ok 2) (.ok dave)]).length : Int) + 1 ∧
      ∀ s ∈ serveAll containsAt students [.create (.ok dave), .update (.ok 2) (.ok dave)],
        s.ID < r.ID) :=
  have hreach : ReachableWithoutDelete containsAt
      (serveAll containsAt students [.create (.ok dave), .update (.ok 2) (.ok dave)]) :=
    ⟨[.create (.ok dave), .update (.ok 2) (.ok dave)], by simp [Request.isDelete], rfl⟩
  ⟨hreach, ids_follow_positions containsAt _ hreach⟩

end StudentAPI
